import Mathlib

/-!
Shallow embedding of the LoadBalancerGo request-routing core:
the Backend health-counter state machine, the ServerPool with two-phase
graceful removal, the RoundRobin selection strategy, the proxy entry
point, the per-client token-bucket rate limiter, and the reload
coordinator's backend diff.  Go machine integers are modelled as `Nat`
with explicit reduction modulo the word size where overflow can occur
(`uint8` counters, the `uint64` round-robin counter, `uint` bucket
capacity); Go `float64` token arithmetic is modelled over `ℚ`;
durations are `Nat`.
-/

namespace LoadBalancerGo

/-- Word modulus of Go `uint`/`uint64` on a 64-bit platform. -/
def U64 : Nat := 2 ^ 64

/-- Byte modulus of Go `uint8`. -/
def U8 : Nat := 2 ^ 8

/-- One upstream target, from `Backend` in the backend package:
URL, liveness flag, per-target timeout, and the two consecutive-outcome
counters (Go `uint8`, held as `Nat` reduced mod 256 on update). -/
structure Backend where
  url : String
  alive : Bool
  timeout : Nat
  successCount : Nat
  failureCount : Nat
  deriving Repr, DecidableEq

/-- Go `NewBackend`: a fresh backend starts dead with both counters zero. -/
def NewBackend (url : String) (timeout : Nat) : Backend :=
  { url := url, alive := false, timeout := timeout
    successCount := 0, failureCount := 0 }

/-- Go `Backend.UpdateSuccessCount(threshold)`: increment the success
counter (uint8), zero the failure counter; if the success counter has
reached `uint8(threshold)`, set alive and reset both counters. -/
def UpdateSuccessCount (threshold : Nat) (b : Backend) : Backend :=
  let succ := (b.successCount + 1) % U8
  if threshold % U8 ≤ succ then
    { b with alive := true, successCount := 0, failureCount := 0 }
  else
    { b with successCount := succ, failureCount := 0 }

/-- Go `Backend.UpdateFailureCount(threshold)`: increment the failure
counter (uint8), zero the success counter; if the failure counter has
reached `uint8(threshold)`, clear alive and reset both counters. -/
def UpdateFailureCount (threshold : Nat) (b : Backend) : Backend :=
  let fail := (b.failureCount + 1) % U8
  if threshold % U8 ≤ fail then
    { b with alive := false, successCount := 0, failureCount := 0 }
  else
    { b with successCount := 0, failureCount := fail }

/-- A health outcome fed into a backend's counters, by the health
checker or by the reverse proxy's error handler. -/
inductive HealthEvent where
  | success
  | failure
  deriving Repr, DecidableEq

/-- Apply one health outcome with the configured healthy / unhealthy
thresholds, as the health checker does
(`UpdateSuccessCount(HealthyThreshold)` on a 200 probe,
`UpdateFailureCount(UnhealthyThreshold)` otherwise). -/
def applyHealth (hs fs : Nat) (e : HealthEvent) (b : Backend) : Backend :=
  match e with
  | .success => UpdateSuccessCount hs b
  | .failure => UpdateFailureCount fs b

/-- Run a sequence of health outcomes from a given backend state. -/
def runHealth (hs fs : Nat) (b : Backend) (t : List HealthEvent) : Backend :=
  t.foldl (fun s e => applyHealth hs fs e s) b

/-! ### Round-robin selection (internal/algorithms/roundRobin.go) -/

/-- The `RoundRobin` strategy state: the shared `uint64` selection counter. -/
structure RoundRobin where
  current : Nat
  deriving Repr, DecidableEq

/-- Errors returned by `RoundRobin.Select` (`fmt.Errorf` values). -/
inductive SelectError where
  | noBackendFound
  | noBackendFoundAlive
  deriving Repr, DecidableEq

/-- The scan loop of `Select`: `for i := next; i < len+next; i++` with
`idx := i % len`, returning the first backend whose `Alive` flag is set
together with its index.  `fuel` is the number of slots left to scan
(`len + next - i`), `start` is the running value of `i`. -/
def scanFrom (backends : List Backend) : Nat → Nat → Option (Nat × Backend)
  | _, 0 => none
  | start, fuel + 1 =>
    let idx := start % backends.length
    match backends[idx]? with
    | some b => if b.alive then some (idx, b) else scanFrom backends (start + 1) fuel
    | none => none

/-- Go `RoundRobin.NextIndex` composed into `Select`:
`int(atomic.AddUint64(&rr.current, 1) % uint64(len(backends)))`.
Returns the new strategy state and the selection result. -/
def RoundRobin.Select (rr : RoundRobin) (backends : List Backend) :
    RoundRobin × Except SelectError Backend :=
  if backends.length = 0 then (rr, .error .noBackendFound)
  else
    let c := (rr.current + 1) % U64
    let next := c % backends.length
    match scanFrom backends next backends.length with
    | some (idx, b) =>
      (if idx = next then ⟨c⟩ else ⟨idx⟩, .ok b)
    | none => (⟨c⟩, .error .noBackendFoundAlive)

/-- Spec-side description of the wrapped scan (for comparison with the
implementation): try the offsets `0, …, len-1` from `start` in order
and yield the first live backend. -/
def firstAliveWrapped (backends : List Backend) (start : Nat) : Option Backend :=
  (List.range backends.length).findSome? fun k =>
    match backends[(start + k) % backends.length]? with
    | some b => if b.alive then some b else none
    | none => none

/-! ### Proxy entry point (internal/proxy/proxy.go) -/

/-- The responses `Proxy.ServeHTTP` and the reverse-proxy error handler
can produce, plus the rate limiter's denial. -/
inductive HttpResponse where
  | serviceUnavailable503
  | internalError500
  | tooManyRequests429
  | forwarded (b : Backend)
  deriving Repr, DecidableEq

/-- Go `Proxy.ServeHTTP`: read the attempt count from context (default 0);
if it exceeds 3 answer 503 ("Service not available"); otherwise run the
balancer's `Select`; on selection error answer 500
("Failed to select backend"); otherwise hand the request to the chosen
backend's reverse proxy. -/
def Proxy.ServeHTTP (rr : RoundRobin) (backends : List Backend)
    (attempts : Nat) : RoundRobin × HttpResponse :=
  if 3 < attempts then (rr, .serviceUnavailable503)
  else
    match RoundRobin.Select rr backends with
    | (rr', .error _) => (rr', .internalError500)
    | (rr', .ok b) => (rr', .forwarded b)

/-- The reverse-proxy `ErrorHandler` loop of `NewBackend` against a
transport that fails every contact.  `failLoopGo threshold fuel b`
describes "a contact to the backend happens and fails, then the handler
runs with `fuel = threshold - retries` retries still allowed": while
`retries < failureThreshold` the handler sleeps 10ms, increments the
retry count in context, calls `UpdateFailureCount(failureThreshold)` on
the backend, and re-sends through the same single-host reverse proxy;
once retries reach the threshold it answers 503 ("Service Unavailable").
Returns (number of backend contacts, final backend state, response). -/
def failLoopGo (threshold : Nat) : Nat → Backend → Nat × Backend × HttpResponse
  | 0, b => (1, b, .serviceUnavailable503)
  | fuel + 1, b =>
    let b' := UpdateFailureCount threshold b
    let r := failLoopGo threshold fuel b'
    (r.1 + 1, r.2.1, r.2.2)

/-- The error-handler recursion started at retry count `retries`;
the guard `retries < failureThreshold` with unit increments makes the
remaining retry budget `threshold - retries`. -/
def failLoop (threshold retries : Nat) (b : Backend) :
    Nat × Backend × HttpResponse :=
  failLoopGo threshold (threshold - retries) b

/-- Outcome of one client request served by `Proxy.ServeHTTP` when
every contact to the selected backend fails at transport level:
how many times `Select` ran, how many backend contacts were made, and
the synthesized response. -/
structure RequestOutcome where
  selections : Nat
  contacts : Nat
  response : HttpResponse
  deriving Repr, DecidableEq

/-- One client request through `Proxy.ServeHTTP` against a transport
that always fails: the proxy selects once; the selected backend's own
error handler then retries that same backend (the retry loop never
re-enters `Proxy.ServeHTTP` or the balancer, since it increments
`CtxRetryKey`, not `CtxAttemptsKey`). -/
def serveAllTransportFail (rr : RoundRobin) (backends : List Backend)
    (attempts threshold : Nat) : RequestOutcome :=
  if 3 < attempts then ⟨0, 0, .serviceUnavailable503⟩
  else
    match RoundRobin.Select rr backends with
    | (_, .error _) => ⟨1, 0, .internalError500⟩
    | (_, .ok b) =>
      let r := failLoop threshold 0 b
      ⟨1, r.1, r.2.2⟩

/-! ### Server pool (ServerPool, two-phase RemoveBackends) -/

/-- Go `slices.IndexFunc(sp.Backends, url match)` read out as the matched
backend: first backend in the pool whose URL equals `target`. -/
def lookupFirst : List Backend → String → Option Backend
  | [], _ => none
  | b :: rest, target =>
    if b.url = target then some b else lookupFirst rest target

/-- Go `sp.Backends[index].SetAlive(false)` at the first index whose URL
equals `target` (no change when no backend matches). -/
def setAliveFalseFirst : List Backend → String → List Backend
  | [], _ => []
  | b :: rest, target =>
    if b.url = target then { b with alive := false } :: rest
    else b :: setAliveFalseFirst rest target

/-- Excision `sp.Backends = append(sp.Backends[:idx], sp.Backends[idx+1:]...)`
at the first index whose URL equals `t` (no change when none matches). -/
def removeFirst : List Backend → String → List Backend
  | [], _ => []
  | b :: rest, t => if b.url = t then rest else b :: removeFirst rest t

/-- State accumulated by phase 1 of `RemoveBackends`. -/
structure Phase1Result where
  pool : List Backend
  targets : List String
  maxTimeout : Nat
  deriving Repr, DecidableEq

/-- Phase 1 of `ServerPool.RemoveBackends`, under the write lock: for
each requested URL in order, skip it if nothing matches, else mark the
first matching backend dead, append its URL to `targetsToRemove`, and
raise `maxTimeout` to that backend's timeout if larger. -/
def removePhase1 : List Backend → List String → List String → Nat → Phase1Result
  | pool, [], targets, maxT => ⟨pool, targets, maxT⟩
  | pool, target :: rest, targets, maxT =>
    match lookupFirst pool target with
    | none => removePhase1 pool rest targets maxT
    | some b =>
      removePhase1 (setAliveFalseFirst pool target) rest
        (targets ++ [b.url]) (Nat.max maxT b.timeout)

/-- Phase 2 of `ServerPool.RemoveBackends`, after re-acquiring the
lock: excise the first match of each recorded target in order. -/
def removePhase2 (pool : List Backend) (targets : List String) : List Backend :=
  targets.foldl removeFirst pool

/-- Result of a whole `RemoveBackends` call: the pool between the two
phases, the final pool, and the list of sleep durations performed. -/
structure RemoveResult where
  afterPhase1 : List Backend
  final : List Backend
  sleeps : List Nat
  deriving Repr, DecidableEq

/-- Go `ServerPool.RemoveBackends(urls)`: run phase 1; if no URL matched,
return at once; otherwise sleep `maxTimeout` once and run phase 2. -/
def RemoveBackends (pool : List Backend) (urls : List String) : RemoveResult :=
  let r := removePhase1 pool urls [] 0
  if r.targets = [] then ⟨r.pool, r.pool, []⟩
  else ⟨r.pool, removePhase2 r.pool r.targets, [r.maxTimeout]⟩

/-- Mutex operations on `sp.mux` as they occur in source order. -/
inductive LockEvent where
  | lock
  | unlock
  deriving Repr, DecidableEq

/-- The sequence of `sp.mux.Lock()` / `sp.mux.Unlock()` calls that
`RemoveBackends` performs on each control path: `Lock()` at entry; the
early `return` when `targetsToRemove` is empty performs no `Unlock`;
the non-empty path does `Unlock()`, sleeps, then `Lock()` again, and
the function ends with no further `Unlock`. -/
def removeBackendsLockTrace (pool : List Backend) (urls : List String) :
    List LockEvent :=
  if (removePhase1 pool urls [] 0).targets = [] then [.lock]
  else [.lock, .unlock, .lock]

/-- Net lock depth after a sequence of mutex operations (the write
lock is held at return exactly when this is positive). -/
def locksHeldAfter (events : List LockEvent) : Nat :=
  events.foldl (fun n e => match e with | .lock => n + 1 | .unlock => n - 1) 0

/-! ### Token-bucket rate limiter (internal/middleware/rateLimiter) -/

/-- A per-client token bucket; `tokens` models the Go `float64` level
over `ℚ`, and the `lastRefill` timestamp is replaced by passing the
elapsed seconds into each access. -/
structure Bucket where
  tokens : ℚ
  deriving DecidableEq

/-- Go `NewBucket(capacity)`: level starts at `float64(capacity)`. -/
def NewBucket (capacity : Nat) : Bucket := ⟨(capacity : ℚ)⟩

/-- Go `Bucket.CheckAndConsumeToken(refillRate, capacity)`: recompute
`tokens = min(elapsed.Seconds()*refillRate + tokens, float64(capacity))`,
refresh `lastRefill`, then consume one token iff the level is `>= 1.0`.
Returns the updated bucket and whether the request is admitted. -/
def CheckAndConsumeToken (elapsedSeconds refillRate : ℚ) (capacity : Nat)
    (b : Bucket) : Bucket × Bool :=
  let t := min (elapsedSeconds * refillRate + b.tokens) (capacity : ℚ)
  if 1 ≤ t then (⟨t - 1⟩, true) else (⟨t⟩, false)

/-- The limiter: bucket map keyed by the `x-api-key` header value,
with the Go `uint` capacity held as a `Nat < 2^64`. -/
structure RateLimiter where
  bucketList : List (String × Bucket)
  capacity : Nat
  refillRate : ℚ

/-- Go map read `rl.BucketList[clientIp]` (nil when absent). -/
def findBucket (l : List (String × Bucket)) (key : String) : Option Bucket :=
  match l.find? (fun p => p.1 = key) with
  | some p => some p.2
  | none => none

/-- Store a bucket under a key (map write; replaces any existing entry). -/
def storeBucket (l : List (String × Bucket)) (key : String) (b : Bucket) :
    List (String × Bucket) :=
  match l.find? (fun p => p.1 = key) with
  | some _ => l.map (fun p => if p.1 = key then (key, b) else p)
  | none => (key, b) :: l

/-- What the rate limiter does with a request: pass it on to the next
handler (the proxy), or answer 429 and return without calling it. -/
inductive LimiterOutcome where
  | passedToNext
  | rejected429
  deriving Repr, DecidableEq

/-- Go `RateLimiter.ServeHTTP`: look up the client's bucket; when present,
`CheckAndConsumeToken` decides between calling the next handler and a
429 ("Rate Limited this IP") that returns without calling it; when
absent, create the bucket with `rl.capacity - 1` tokens (Go `uint`
subtraction, wrapping mod 2^64) and call the next handler without a
token check.  Returns the updated limiter state and the outcome. -/
def RateLimiter.ServeHTTP (rl : RateLimiter) (clientKey : String)
    (elapsedSeconds : ℚ) : RateLimiter × LimiterOutcome :=
  match findBucket rl.bucketList clientKey with
  | some bucket =>
    let r := CheckAndConsumeToken elapsedSeconds rl.refillRate rl.capacity bucket
    if r.2 then
      ({ rl with bucketList := storeBucket rl.bucketList clientKey r.1 },
        .passedToNext)
    else
      ({ rl with bucketList := storeBucket rl.bucketList clientKey r.1 },
        .rejected429)
  | none =>
    let nb := NewBucket ((rl.capacity + U64 - 1) % U64)
    ({ rl with bucketList := storeBucket rl.bucketList clientKey nb },
      .passedToNext)

/-! ### Reload coordinator diff (internal/config/watcher.go) -/

/-- Go `CheckIfBackendChanged(c, prevConfig)`: build the key sets of both
backend-URL lists and return (added, removed); `nil` previous config
yields empty diffs.  Go map-key iteration visits each distinct URL
once in unspecified order; the model fixes first-occurrence order via
`List.dedup`. -/
def CheckIfBackendChanged (c : List String) (prevConfig : Option (List String)) :
    List String × List String :=
  match prevConfig with
  | none => ([], [])
  | some prev =>
    (c.dedup.filter (fun u => decide (u ∉ prev)),
     prev.dedup.filter (fun u => decide (u ∉ c)))

/-- The watcher's debounce-timer branch: recompute the diff against the
last-applied config and emit a `BackendChange` (driving pool
`AddBackends`/`RemoveBackends`) only when `added` or `removed` is
non-empty.  Returns whether a change event is sent. -/
def watcherTimerFire (c : List String) (prev : List String) : Bool :=
  let d := CheckIfBackendChanged c (some prev)
  decide (d.1.length > 0) || decide (d.2.length > 0)

/-- Invariant of a backend's counters under fixed healthy / unhealthy
thresholds: each run counter stays below its threshold, and at most one
of the two is non-zero. -/
def CounterInv (hs fs : Nat) (b : Backend) : Prop :=
  b.successCount < hs ∧ b.failureCount < fs ∧
    (b.successCount = 0 ∨ b.failureCount = 0)

/-- The "exactly one of the two counters is non-zero" reading of the
spec's counter invariant, for a backend state. -/
def ExactlyOneCounterNonzero (b : Backend) : Prop :=
  (b.successCount ≠ 0 ∧ b.failureCount = 0) ∨
    (b.successCount = 0 ∧ b.failureCount ≠ 0)

instance (b : Backend) : Decidable (ExactlyOneCounterNonzero b) := by
  unfold ExactlyOneCounterNonzero; infer_instance

/-! ## Theorems -/

theorem applyHealth_inv {hs fs : Nat} (h1 : 1 ≤ hs) (h2 : hs ≤ 255)
    (h3 : 1 ≤ fs) (h4 : fs ≤ 255) (e : HealthEvent) {b : Backend}
    (hb : CounterInv hs fs b) : CounterInv hs fs (applyHealth hs fs e b) := by
  obtain ⟨hsc, hfc, _⟩ := hb
  cases e <;>
    simp only [applyHealth, UpdateSuccessCount, UpdateFailureCount, U8] <;>
    split <;> constructor <;> simp_all <;> omega

theorem runHealth_inv {hs fs : Nat} (h1 : 1 ≤ hs) (h2 : hs ≤ 255)
    (h3 : 1 ≤ fs) (h4 : fs ≤ 255) (t : List HealthEvent) {b : Backend}
    (hb : CounterInv hs fs b) : CounterInv hs fs (runHealth hs fs b t) := by
  induction t generalizing b with
  | nil => exact hb
  | cons e rest ih =>
    exact ih (applyHealth_inv h1 h2 h3 h4 e hb)

theorem newBackend_inv {hs fs : Nat} (h1 : 1 ≤ hs) (h3 : 1 ≤ fs)
    (url : String) (tmo : Nat) : CounterInv hs fs (NewBackend url tmo) := by
  refine ⟨?_, ?_, Or.inl rfl⟩ <;> simp [NewBackend] <;> omega

theorem counterStepChar (hs fs : Nat) (h1 : 1 ≤ hs) (h2 : hs ≤ 255)
    (h3 : 1 ≤ fs) (h4 : fs ≤ 255) (s : Backend)
    (hinv : CounterInv hs fs s) :
    (s.successCount + 1 = hs →
      applyHealth hs fs .success s =
        { s with alive := true, successCount := 0, failureCount := 0 }) ∧
    (s.successCount + 1 ≠ hs →
      applyHealth hs fs .success s =
        { s with successCount := s.successCount + 1, failureCount := 0 }) ∧
    (s.failureCount + 1 = fs →
      applyHealth hs fs .failure s =
        { s with alive := false, successCount := 0, failureCount := 0 }) ∧
    (s.failureCount + 1 ≠ fs →
      applyHealth hs fs .failure s =
        { s with successCount := 0, failureCount := s.failureCount + 1 }) ∧
    (s.failureCount ≠ 0 → 1 < hs →
      (applyHealth hs fs .success s).successCount = 1 ∧
      (applyHealth hs fs .success s).failureCount = 0) ∧
    (s.successCount ≠ 0 → 1 < fs →
      (applyHealth hs fs .failure s).failureCount = 1 ∧
      (applyHealth hs fs .failure s).successCount = 0) := by
  obtain ⟨hsc, hfc, hone⟩ := hinv
  have hU8 : U8 = 256 := rfl
  have hm1 : (s.successCount + 1) % U8 = s.successCount + 1 :=
    Nat.mod_eq_of_lt (by omega)
  have hm2 : (s.failureCount + 1) % U8 = s.failureCount + 1 :=
    Nat.mod_eq_of_lt (by omega)
  have hmh : hs % U8 = hs := Nat.mod_eq_of_lt (by omega)
  have hmf : fs % U8 = fs := Nat.mod_eq_of_lt (by omega)
  refine ⟨fun h => ?_, fun h => ?_, fun h => ?_, fun h => ?_,
    fun hf hlt => ?_, fun hsn hlt => ?_⟩
  · simp only [applyHealth, UpdateSuccessCount, hm1, hmh]
    rw [if_pos (by omega)]
  · simp only [applyHealth, UpdateSuccessCount, hm1, hmh]
    rw [if_neg (by omega)]
  · simp only [applyHealth, UpdateFailureCount, hm2, hmf]
    rw [if_pos (by omega)]
  · simp only [applyHealth, UpdateFailureCount, hm2, hmf]
    rw [if_neg (by omega)]
  · have hs0 : s.successCount = 0 := by rcases hone with h | h <;> omega
    have h01 : (0 + 1) % U8 = 1 := rfl
    simp only [applyHealth, UpdateSuccessCount, hs0, h01, hmh]
    rw [if_neg (by omega)]
    exact ⟨rfl, rfl⟩
  · have hf0 : s.failureCount = 0 := by rcases hone with h | h <;> omega
    have h01 : (0 + 1) % U8 = 1 := rfl
    simp only [applyHealth, UpdateFailureCount, hf0, h01, hmf]
    rw [if_neg (by omega)]
    exact ⟨rfl, rfl⟩

/-- C4: starting from construction, under any sequence of health
outcomes with thresholds `hs`, `fs` (positive, within `uint8` range),
the next `UpdateSuccessCount`/`UpdateFailureCount` call behaves as the
hysteresis spec says: alive flips to true (with both counters reset)
exactly when the consecutive-success run reaches `hs`, flips to false
(with both counters reset) exactly when the consecutive-failure run
reaches `fs`; below threshold the run increments and the opposite run
is zeroed, so alive never changes there; and a single opposite outcome
resets the opposite run, leaving the new run at 1. -/
theorem C4_threshold_hysteresis (hs fs : Nat) (url : String) (tmo : Nat)
    (t : List HealthEvent) (s : Backend)
    (h1 : 1 ≤ hs) (h2 : hs ≤ 255) (h3 : 1 ≤ fs) (h4 : fs ≤ 255)
    (hrun : s = runHealth hs fs (NewBackend url tmo) t) :
    (s.successCount + 1 = hs →
      applyHealth hs fs .success s =
        { s with alive := true, successCount := 0, failureCount := 0 }) ∧
    (s.successCount + 1 ≠ hs →
      applyHealth hs fs .success s =
        { s with successCount := s.successCount + 1, failureCount := 0 }) ∧
    (s.failureCount + 1 = fs →
      applyHealth hs fs .failure s =
        { s with alive := false, successCount := 0, failureCount := 0 }) ∧
    (s.failureCount + 1 ≠ fs →
      applyHealth hs fs .failure s =
        { s with successCount := 0, failureCount := s.failureCount + 1 }) ∧
    (s.failureCount ≠ 0 → 1 < hs →
      (applyHealth hs fs .success s).successCount = 1 ∧
      (applyHealth hs fs .success s).failureCount = 0) ∧
    (s.successCount ≠ 0 → 1 < fs →
      (applyHealth hs fs .failure s).failureCount = 1 ∧
      (applyHealth hs fs .failure s).successCount = 0) :=
  counterStepChar hs fs h1 h2 h3 h4 s
    (hrun ▸ runHealth_inv h1 h2 h3 h4 t (newBackend_inv h1 h3 url tmo))

/-- Witness for C4 at a concrete input: with healthy threshold 2, a
backend that has one consecutive success flips alive with both
counters reset on the next success. -/
theorem C4_threshold_hysteresis_witness :
    applyHealth 2 2 .success (Backend.mk "a" false 0 1 0) =
      Backend.mk "a" true 0 0 0 :=
  (C4_threshold_hysteresis 2 2 "a" 0 [HealthEvent.success]
    (Backend.mk "a" false 0 1 0) (by decide) (by decide) (by decide)
    (by decide) (by decide)).1 (by decide)

/-- C9 (amended): in every state reachable from construction by health
updates, at most one of the two consecutive counters is non-zero (both
are zero at construction and right after each threshold flip). -/
theorem C9_at_most_one_nonzero (hs fs : Nat) (url : String) (tmo : Nat)
    (t : List HealthEvent)
    (h1 : 1 ≤ hs) (h2 : hs ≤ 255) (h3 : 1 ≤ fs) (h4 : fs ≤ 255) :
    (runHealth hs fs (NewBackend url tmo) t).successCount = 0 ∨
    (runHealth hs fs (NewBackend url tmo) t).failureCount = 0 :=
  (runHealth_inv h1 h2 h3 h4 t (newBackend_inv h1 h3 url tmo)).2.2

/-- Witness for C9's amended statement at a concrete input. -/
theorem C9_at_most_one_nonzero_witness :
    (runHealth 2 3 (NewBackend "a" 0) [.failure]).successCount = 0 ∨
    (runHealth 2 3 (NewBackend "a" 0) [.failure]).failureCount = 0 :=
  C9_at_most_one_nonzero 2 3 "a" 0 [.failure]
    (by decide) (by decide) (by decide) (by decide)

/-- C9 as stated is false: the freshly constructed backend (reachable
by the empty update sequence) has both counters zero, so it is not the
case that exactly one of the two counters is non-zero at any time. -/
theorem C9_counterexample :
    ¬ ExactlyOneCounterNonzero (runHealth 2 3 (NewBackend "a" 0) []) := by
  decide

theorem scanFrom_mem_alive (backends : List Backend) :
    ∀ (fuel start : Nat) {idx : Nat} {b : Backend},
      scanFrom backends start fuel = some (idx, b) →
      b ∈ backends ∧ b.alive = true := by
  intro fuel
  induction fuel with
  | zero => intro start idx b h; simp [scanFrom] at h
  | succ n ih =>
    intro start idx b h
    simp only [scanFrom] at h
    rcases hg : backends[start % backends.length]? with _ | b'
    · rw [hg] at h; exact absurd h (by simp)
    · rw [hg] at h
      by_cases ha : b'.alive = true
      · simp only [ha, if_true] at h
        rw [Option.some_inj] at h
        cases h
        exact ⟨List.getElem?_mem hg, ha⟩
      · simp only [ha, if_false] at h
        exact ih (start + 1) h

theorem scanFrom_all_dead (backends : List Backend)
    (hdead : ∀ b ∈ backends, b.alive = false) :
    ∀ (fuel start : Nat), scanFrom backends start fuel = none := by
  intro fuel
  induction fuel with
  | zero => intro _; rfl
  | succ n ih =>
    intro start
    simp only [scanFrom]
    rcases hg : backends[start % backends.length]? with _ | b'
    · simp
    · have hb' := hdead b' (List.getElem?_mem hg)
      simp [hb', ih]

theorem scanFrom_snd_eq (backends : List Backend)
    (hne : backends.length ≠ 0) :
    ∀ (fuel start : Nat),
      Option.map Prod.snd (scanFrom backends start fuel) =
        (List.range fuel).findSome? (fun k =>
          match backends[(start + k) % backends.length]? with
          | some b => if b.alive then some b else none
          | none => none) := by
  intro fuel
  induction fuel with
  | zero => intro _; rfl
  | succ n ih =>
    intro start
    rw [List.range_succ_eq_map, List.findSome?_cons]
    have hlt : start % backends.length < backends.length :=
      Nat.mod_lt _ (Nat.pos_of_ne_zero hne)
    have hsome : backends[start % backends.length]? =
        some (backends.get ⟨start % backends.length, hlt⟩) := by
      simp [List.getElem?_eq_getElem hlt]
    have hfun : ((fun k =>
          match backends[(start + k) % backends.length]? with
          | some b => if b.alive then some b else none
          | none => none) ∘ Nat.succ) =
        (fun k =>
          match backends[(start + 1 + k) % backends.length]? with
          | some b => if b.alive then some b else none
          | none => none) := by
      funext k
      simp only [Function.comp_apply, Nat.succ_eq_add_one]
      have harith : start + (k + 1) = start + 1 + k := by omega
      rw [harith]
    have htail : List.findSome? (fun k =>
          match backends[(start + k) % backends.length]? with
          | some b => if b.alive then some b else none
          | none => none) (List.map Nat.succ (List.range n)) =
        Option.map Prod.snd (scanFrom backends (start + 1) n) := by
      rw [List.findSome?_map, hfun, ih (start + 1)]
    simp only [scanFrom, hsome, Nat.add_zero]
    by_cases ha : (backends.get ⟨start % backends.length, hlt⟩).alive
    · rw [if_pos ha, if_pos ha]
      rfl
    · rw [if_neg ha, if_neg ha]
      rw [htail]

/-- C2: `RoundRobin.Select` on a snapshot fails with the no-backend
error on an empty snapshot; otherwise it scans at most `len` wrapped
slots from `start = (counter+1 mod 2^64) mod len` and returns the first
live backend in that order (`firstAliveWrapped`), failing with the
no-live-backend error when the scan finds none; any returned backend is
a live member of the snapshot, and when every backend is dead the
result is always one of the two no-backend errors (never a panic or a
nil result). -/
theorem C2_roundrobin_select (rr : RoundRobin) (backends : List Backend) :
    ((RoundRobin.Select rr backends).2 =
      if backends.length = 0 then .error .noBackendFound
      else
        match firstAliveWrapped backends
            (((rr.current + 1) % U64) % backends.length) with
        | some b => .ok b
        | none => .error .noBackendFoundAlive) ∧
    (∀ b, (RoundRobin.Select rr backends).2 = .ok b →
      b ∈ backends ∧ b.alive = true) ∧
    ((∀ b ∈ backends, b.alive = false) →
      (RoundRobin.Select rr backends).2 = .error .noBackendFound ∨
      (RoundRobin.Select rr backends).2 = .error .noBackendFoundAlive) := by
  by_cases h0 : backends.length = 0
  · refine ⟨?_, ?_, ?_⟩
    · simp [RoundRobin.Select, h0]
    · intro b hb
      simp [RoundRobin.Select, h0] at hb
    · intro _
      left
      simp [RoundRobin.Select, h0]
  · have hfw : firstAliveWrapped backends
        (((rr.current + 1) % U64) % backends.length) =
        Option.map Prod.snd (scanFrom backends
          (((rr.current + 1) % U64) % backends.length) backends.length) :=
      (scanFrom_snd_eq backends h0 backends.length _).symm
    rcases hscan : scanFrom backends
        (((rr.current + 1) % U64) % backends.length) backends.length
      with _ | ⟨idx, b0⟩
    · refine ⟨?_, ?_, ?_⟩
      · simp [RoundRobin.Select, h0, hscan, hfw]
      · intro b hb
        simp [RoundRobin.Select, h0, hscan] at hb
      · intro _
        right
        simp [RoundRobin.Select, h0, hscan]
    · refine ⟨?_, ?_, ?_⟩
      · simp [RoundRobin.Select, h0, hscan, hfw]
      · intro b hb
        simp only [RoundRobin.Select, if_neg h0, hscan] at hb
        have hb0 := scanFrom_mem_alive backends backends.length _ hscan
        cases hb
        · exact hb0
      · intro hdead
        exact absurd hscan (by simp [scanFrom_all_dead backends hdead])

/-- Witness for C2 at concrete inputs: the selected backend is a live
member of the snapshot, and an all-dead snapshot yields a no-backend
error. -/
theorem C2_roundrobin_select_witness :
    (Backend.mk "b" true 0 0 0 ∈
        [Backend.mk "a" false 0 0 0, Backend.mk "b" true 0 0 0] ∧
      (Backend.mk "b" true 0 0 0).alive = true) ∧
    ((RoundRobin.Select ⟨0⟩ [Backend.mk "a" false 0 0 0]).2 =
        .error .noBackendFound ∨
      (RoundRobin.Select ⟨0⟩ [Backend.mk "a" false 0 0 0]).2 =
        .error .noBackendFoundAlive) :=
  ⟨(C2_roundrobin_select ⟨0⟩
      [Backend.mk "a" false 0 0 0, Backend.mk "b" true 0 0 0]).2.1
      (Backend.mk "b" true 0 0 0) rfl,
   (C2_roundrobin_select ⟨0⟩ [Backend.mk "a" false 0 0 0]).2.2
      (by decide)⟩

/-- C1 is false on the code: with an empty pool (so `Select` fails with
the no-backend error) and a fresh request (attempt count 0),
`Proxy.ServeHTTP` answers 500 ("Failed to select backend"), not 503. -/
theorem C1_counterexample :
    (RoundRobin.Select ⟨0⟩ ([] : List Backend)).2 =
        .error .noBackendFound ∧
    (Proxy.ServeHTTP ⟨0⟩ ([] : List Backend) 0).2 = .internalError500 ∧
    HttpResponse.internalError500 ≠ HttpResponse.serviceUnavailable503 :=
  ⟨rfl, rfl, by decide⟩

/-- C1 (amended): whenever the balancer's `Select` returns an error
(the only errors it has are the no-backend family) and the attempt
count has not exceeded 3, `Proxy.ServeHTTP` answers 500 Internal Server
Error; the 503 response is produced only by the attempt ceiling. -/
theorem C1_select_error_gives_500 (rr : RoundRobin) (backends : List Backend)
    (attempts : Nat) (e : SelectError) (hatt : attempts ≤ 3)
    (hsel : (RoundRobin.Select rr backends).2 = .error e) :
    (Proxy.ServeHTTP rr backends attempts).2 = .internalError500 := by
  rcases hpair : RoundRobin.Select rr backends with ⟨rr', res⟩
  rw [hpair] at hsel
  simp only at hsel
  subst hsel
  unfold Proxy.ServeHTTP
  rw [if_neg (by omega : ¬ 3 < attempts), hpair]

/-- Witness for C1's amended statement at a concrete input. -/
theorem C1_select_error_gives_500_witness :
    (Proxy.ServeHTTP ⟨0⟩ ([] : List Backend) 0).2 = .internalError500 :=
  C1_select_error_gives_500 ⟨0⟩ [] 0 .noBackendFound (by decide) rfl

theorem failLoopGo_spec (threshold : Nat) :
    ∀ (fuel : Nat) (b : Backend),
      (failLoopGo threshold fuel b).1 = fuel + 1 ∧
      (failLoopGo threshold fuel b).2.2 = .serviceUnavailable503 := by
  intro fuel
  induction fuel with
  | zero => intro b; exact ⟨rfl, rfl⟩
  | succ n ih =>
    intro b
    simp only [failLoopGo]
    exact ⟨by rw [(ih _).1], (ih _).2⟩

/-- C3 is false on the code: with unhealthy threshold 5, a request
whose (sole, selected) backend fails every transport contact makes 6
contacts — all to that same backend, through its own reverse proxy's
error handler, which increments the retry count rather than the
attempt count and never re-enters selection — before the single 503,
exceeding the claimed ceiling of 4 contacts. -/
theorem C3_counterexample :
    serveAllTransportFail ⟨0⟩ [Backend.mk "a" true 7 0 0] 0 5 =
      ⟨1, 6, .serviceUnavailable503⟩ ∧
    ¬ ((serveAllTransportFail ⟨0⟩ [Backend.mk "a" true 7 0 0] 0 5).contacts
        ≤ 4) :=
  ⟨rfl, by decide⟩

/-- C3 (amended): on each transport failure the selected backend's own
`ErrorHandler` increments that backend's failure counter, sleeps 10ms,
increments the per-request retry count (`CtxRetryKey`, distinct from
the proxy's attempt count), and re-sends to the same backend via its
own reverse proxy, never re-entering selection; hence a request whose
selected backend always fails transport performs exactly one selection
and exactly `failureThreshold + 1` contacts of that same backend, and
receives exactly one 503 (4 contacts when the unhealthy threshold is
3). -/
theorem C3_retry_same_backend (rr : RoundRobin) (backends : List Backend)
    (attempts threshold : Nat) (b : Backend) (hatt : attempts ≤ 3)
    (hsel : (RoundRobin.Select rr backends).2 = .ok b) :
    serveAllTransportFail rr backends attempts threshold =
      ⟨1, threshold + 1, .serviceUnavailable503⟩ := by
  rcases hpair : RoundRobin.Select rr backends with ⟨rr', res⟩
  rw [hpair] at hsel
  simp only at hsel
  subst hsel
  unfold serveAllTransportFail
  rw [if_neg (by omega : ¬ 3 < attempts), hpair]
  simp only [failLoop, Nat.sub_zero]
  rw [RequestOutcome.mk.injEq]
  exact ⟨rfl, (failLoopGo_spec threshold threshold b).1,
    (failLoopGo_spec threshold threshold b).2⟩

/-- Witness for C3's amended statement: with unhealthy threshold 3 the
request makes one selection, four contacts, and one 503. -/
theorem C3_retry_same_backend_witness :
    serveAllTransportFail ⟨0⟩ [Backend.mk "a" true 7 0 0] 0 3 =
      ⟨1, 4, .serviceUnavailable503⟩ :=
  C3_retry_same_backend ⟨0⟩ [Backend.mk "a" true 7 0 0] 0 3
    (Backend.mk "a" true 7 0 0) (by decide) rfl

/-- C6 (amended): `RemoveBackends` returns while holding the pool's
write lock on every path, not only the no-match path: the no-match
early return skips the unlock, and the matching path re-acquires the
lock after the drain sleep and ends the function without releasing it;
afterwards every lock acquisition on the pool blocks forever. -/
theorem C6_lock_held_on_every_path (pool : List Backend) (urls : List String) :
    locksHeldAfter (removeBackendsLockTrace pool urls) = 1 := by
  unfold removeBackendsLockTrace
  split <;> rfl

/-- C6's second half is false on the code: on a call whose addresses do
match (so the two-phase removal path runs), the lock trace is
lock-unlock-lock and the function still holds the write lock when it
returns. -/
theorem C6_counterexample :
    (removePhase1 [Backend.mk "a" true 5 0 0] ["a"] [] 0).targets ≠ [] ∧
    removeBackendsLockTrace [Backend.mk "a" true 5 0 0] ["a"] =
      [.lock, .unlock, .lock] ∧
    locksHeldAfter (removeBackendsLockTrace [Backend.mk "a" true 5 0 0] ["a"])
      = 1 :=
  ⟨by decide, by decide, by decide⟩

/-- C8: the reload diff marks as added exactly the URLs present in the
new config and absent from the last-applied one, as removed exactly
those present before and absent now; on identical configs both sets
are empty and the watcher's timer branch emits no change event, so the
coordinator performs zero Add/Remove calls. -/
theorem C8_reload_diff (c prev : List String) :
    (∀ u, u ∈ (CheckIfBackendChanged c (some prev)).1 ↔ u ∈ c ∧ u ∉ prev) ∧
    (∀ u, u ∈ (CheckIfBackendChanged c (some prev)).2 ↔ u ∈ prev ∧ u ∉ c) ∧
    (c = prev → CheckIfBackendChanged c (some prev) = ([], []) ∧
      watcherTimerFire c prev = false) := by
  refine ⟨?_, ?_, ?_⟩
  · intro u
    simp [CheckIfBackendChanged, List.mem_filter, List.mem_dedup]
  · intro u
    simp [CheckIfBackendChanged, List.mem_filter, List.mem_dedup]
  · rintro rfl
    have h1 : List.filter (fun u => decide (u ∉ c)) c.dedup = [] := by
      rw [List.filter_eq_nil_iff]
      intro a ha
      simp [List.mem_dedup.mp ha]
    constructor
    · simp [CheckIfBackendChanged, h1]
    · simp [watcherTimerFire, CheckIfBackendChanged, h1]

/-- Witness for C8 at a concrete input: re-applying the same snapshot
gives empty diffs and no change event. -/
theorem C8_reload_diff_witness :
    CheckIfBackendChanged ["a", "b"] (some ["a", "b"]) = ([], []) ∧
    watcherTimerFire ["a", "b"] ["a", "b"] = false :=
  (C8_reload_diff ["a", "b"] ["a", "b"]).2.2 rfl

theorem find_store_aux (key : String) (b : Bucket) :
    ∀ (l : List (String × Bucket)), (∃ p ∈ l, p.1 = key) →
      List.find? (fun p => p.1 = key)
        (l.map (fun p => if p.1 = key then (key, b) else p)) =
      some (key, b) := by
  intro l
  induction l with
  | nil => rintro ⟨p, hp, _⟩; cases hp
  | cons q rest ih =>
    rintro ⟨p, hp, hpk⟩
    by_cases hq : q.1 = key
    · simp [hq]
    · have hpr : p ∈ rest := by
        rcases List.mem_cons.mp hp with rfl | h
        · exact absurd hpk hq
        · exact h
      simp only [List.map_cons, if_neg hq]
      rw [List.find?_cons_of_neg _ (by simp [hq])]
      exact ih ⟨p, hpr, hpk⟩

theorem findBucket_store (l : List (String × Bucket)) (key : String)
    (b : Bucket) : findBucket (storeBucket l key b) key = some b := by
  unfold findBucket storeBucket
  rcases hf : l.find? (fun p => p.1 = key) with _ | p
  · rw [hf]
    simp
  · rw [hf]
    have hmem := List.mem_of_find?_eq_some hf
    have hkey : p.1 = key := by
      have := List.find?_some hf
      simpa using this
    rw [find_store_aux key b l ⟨p, hmem, hkey⟩]

/-- C7: per client key, the first request from an unseen key creates
the bucket with `capacity - 1` tokens and passes to the next handler
without a token check; a later request recomputes the level as
`min(capacity, tokens + elapsed*refillRate)`, is admitted iff that
level is at least 1 (deducting exactly 1), and a denied request is
answered 429 without reaching the next handler (Go float64 arithmetic
modelled exactly over ℚ). -/
theorem C7_token_bucket (rl : RateLimiter) (key : String) (e : ℚ)
    (hcap1 : 1 ≤ rl.capacity) (hcap2 : rl.capacity < U64) :
    (findBucket rl.bucketList key = none →
      (RateLimiter.ServeHTTP rl key e).2 = .passedToNext ∧
      findBucket (RateLimiter.ServeHTTP rl key e).1.bucketList key =
        some ⟨((rl.capacity - 1 : Nat) : ℚ)⟩) ∧
    (∀ tok : ℚ, findBucket rl.bucketList key = some ⟨tok⟩ →
      (((RateLimiter.ServeHTTP rl key e).2 = .passedToNext ↔
          1 ≤ min (e * rl.refillRate + tok) (rl.capacity : ℚ)) ∧
        (1 ≤ min (e * rl.refillRate + tok) (rl.capacity : ℚ) →
          findBucket (RateLimiter.ServeHTTP rl key e).1.bucketList key =
            some ⟨min (e * rl.refillRate + tok) (rl.capacity : ℚ) - 1⟩) ∧
        (¬ 1 ≤ min (e * rl.refillRate + tok) (rl.capacity : ℚ) →
          (RateLimiter.ServeHTTP rl key e).2 = .rejected429 ∧
          findBucket (RateLimiter.ServeHTTP rl key e).1.bucketList key =
            some ⟨min (e * rl.refillRate + tok) (rl.capacity : ℚ)⟩))) := by
  constructor
  · intro hfb
    have hmod : (rl.capacity + U64 - 1) % U64 = rl.capacity - 1 := by
      have hU : U64 = 18446744073709551616 := rfl
      rw [hU] at hcap2 ⊢
      omega
    unfold RateLimiter.ServeHTTP
    rw [hfb]
    refine ⟨rfl, ?_⟩
    simp only [NewBucket, hmod]
    exact findBucket_store _ _ _
  · intro tok hfb
    unfold RateLimiter.ServeHTTP
    rw [hfb]
    simp only [CheckAndConsumeToken]
    by_cases ht : 1 ≤ min (e * rl.refillRate + tok) (rl.capacity : ℚ)
    · rw [if_pos ht]
      refine ⟨iff_of_true rfl ht, fun _ => ?_, fun hc => absurd ht hc⟩
      exact findBucket_store _ _ _
    · rw [if_neg ht]
      refine ⟨iff_of_false (by simp) ht, fun hc => absurd hc ht,
        fun _ => ⟨rfl, ?_⟩⟩
      exact findBucket_store _ _ _

/-- Witness for C7 at a concrete input: capacity 2, fresh key. -/
theorem C7_token_bucket_witness :
    (RateLimiter.ServeHTTP ⟨[], 2, 1⟩ "k" 0).2 = .passedToNext ∧
    findBucket (RateLimiter.ServeHTTP ⟨[], 2, 1⟩ "k" 0).1.bucketList "k" =
      some ⟨((2 - 1 : Nat) : ℚ)⟩ :=
  (C7_token_bucket ⟨[], 2, 1⟩ "k" 0 (by decide)
    (by unfold U64; norm_num)).1 rfl

/-- C10: with bucket capacity 0, the first request from a new key is
still admitted and its bucket is created with 2^64 - 1 tokens (the Go
`uint` wrap-around of `capacity - 1`); on every subsequent request the
clamp `min(level + refill, capacity)` resets the level to 0, so the
request is denied with 429, and the level stays 0 for all later
requests (float64 modelled exactly over ℚ, where the stored initial
level is exactly 2^64 - 1). -/
theorem C10_zero_capacity (rl : RateLimiter) (key : String)
    (hcap : rl.capacity = 0) :
    (∀ e : ℚ, findBucket rl.bucketList key = none →
      (RateLimiter.ServeHTTP rl key e).2 = .passedToNext ∧
      findBucket (RateLimiter.ServeHTTP rl key e).1.bucketList key =
        some ⟨((U64 - 1 : Nat) : ℚ)⟩) ∧
    (∀ e tok : ℚ, findBucket rl.bucketList key = some ⟨tok⟩ →
      0 ≤ tok → 0 ≤ e → 0 ≤ rl.refillRate →
      (RateLimiter.ServeHTTP rl key e).2 = .rejected429 ∧
      findBucket (RateLimiter.ServeHTTP rl key e).1.bucketList key =
        some ⟨0⟩) := by
  constructor
  · intro e hfb
    have hmod : (rl.capacity + U64 - 1) % U64 = U64 - 1 := by
      have hU : U64 = 18446744073709551616 := rfl
      rw [hU, hcap]
    unfold RateLimiter.ServeHTTP
    rw [hfb]
    refine ⟨rfl, ?_⟩
    simp only [NewBucket, hmod]
    exact findBucket_store _ _ _
  · intro e tok hfb htok he hr
    have hmin : min (e * rl.refillRate + tok) ((rl.capacity : Nat) : ℚ) = 0 := by
      rw [hcap]
      have : (0 : ℚ) ≤ e * rl.refillRate + tok :=
        add_nonneg (mul_nonneg he hr) htok
      simpa using min_eq_right this
    unfold RateLimiter.ServeHTTP
    rw [hfb]
    simp only [CheckAndConsumeToken, hmin]
    rw [if_neg (by norm_num)]
    exact ⟨rfl, findBucket_store _ _ _⟩

/-- Witness for C10 at concrete inputs: a fresh key is admitted with a
2^64 - 1 token bucket; a key whose bucket holds 5 tokens is denied and
clamped to 0. -/
theorem C10_zero_capacity_witness :
    ((RateLimiter.ServeHTTP ⟨[], 0, 1⟩ "k" 0).2 = .passedToNext ∧
      findBucket (RateLimiter.ServeHTTP ⟨[], 0, 1⟩ "k" 0).1.bucketList "k" =
        some ⟨((U64 - 1 : Nat) : ℚ)⟩) ∧
    ((RateLimiter.ServeHTTP ⟨[("k", ⟨5⟩)], 0, 1⟩ "k" 2).2 = .rejected429 ∧
      findBucket
        (RateLimiter.ServeHTTP ⟨[("k", ⟨5⟩)], 0, 1⟩ "k" 2).1.bucketList "k" =
        some ⟨0⟩) :=
  ⟨(C10_zero_capacity ⟨[], 0, 1⟩ "k" rfl).1 0 rfl,
   (C10_zero_capacity ⟨[("k", ⟨5⟩)], 0, 1⟩ "k" rfl).2 2 5 rfl
     (by norm_num) (by norm_num) (by norm_num)⟩

theorem lookupFirst_none (t : String) :
    ∀ (pool : List Backend), lookupFirst pool t = none ↔
      ∀ b ∈ pool, b.url ≠ t := by
  intro pool
  induction pool with
  | nil => simp [lookupFirst]
  | cons q rest ih =>
    by_cases hq : q.url = t
    · simp [lookupFirst, hq]
    · simp [lookupFirst, hq, ih]

theorem lookupFirst_some (t : String) :
    ∀ (pool : List Backend) {b : Backend}, lookupFirst pool t = some b →
      b ∈ pool ∧ b.url = t := by
  intro pool
  induction pool with
  | nil => intro b h; cases h
  | cons q rest ih =>
    intro b h
    by_cases hq : q.url = t
    · rw [lookupFirst, if_pos hq, Option.some_inj] at h
      cases h
      exact ⟨List.mem_cons_self _ _, hq⟩
    · rw [lookupFirst, if_neg hq] at h
      obtain ⟨hm, hu⟩ := ih h
      exact ⟨List.mem_cons_of_mem _ hm, hu⟩

theorem setAliveFalseFirst_map_url (t : String) :
    ∀ (pool : List Backend),
      (setAliveFalseFirst pool t).map Backend.url = pool.map Backend.url := by
  intro pool
  induction pool with
  | nil => rfl
  | cons q rest ih =>
    by_cases hq : q.url = t
    · simp [setAliveFalseFirst, hq]
    · simp [setAliveFalseFirst, hq, ih]

theorem setAliveFalseFirst_eq_map (t : String) :
    ∀ (pool : List Backend), (pool.map Backend.url).Nodup →
      setAliveFalseFirst pool t =
        pool.map (fun b => if b.url = t then { b with alive := false } else b) := by
  intro pool
  induction pool with
  | nil => intro _; rfl
  | cons q rest ih =>
    intro hnd
    rw [List.map_cons, List.nodup_cons] at hnd
    obtain ⟨hqn, hrest⟩ := hnd
    by_cases hq : q.url = t
    · have hid : rest.map
          (fun b => if b.url = t then { b with alive := false } else b) = rest := by
        have : ∀ b ∈ rest, (if b.url = t then { b with alive := false } else b) = b := by
          intro b hb
          have hbne : b.url ≠ t := by
            intro he
            exact hqn (by rw [hq, ← he]; exact List.mem_map_of_mem _ hb)
          rw [if_neg hbne]
        rw [List.map_congr_left this]
        exact List.map_id' rest
      simp [setAliveFalseFirst, hq, hid]
    · simp [setAliveFalseFirst, hq, ih hrest]

theorem removePhase1_maxT_mono :
    ∀ (urls : List String) (pool : List Backend) (tg : List String) (m : Nat),
      m ≤ (removePhase1 pool urls tg m).maxTimeout := by
  intro urls
  induction urls with
  | nil => intro pool tg m; exact le_refl m
  | cons t rest ih =>
    intro pool tg m
    rw [removePhase1]
    rcases hl : lookupFirst pool t with _ | b0
    · exact ih pool tg m
    · exact le_trans (Nat.le_max_left m b0.timeout) (ih _ _ _)

theorem removePhase1_targets_extend :
    ∀ (urls : List String) (pool : List Backend) (tg : List String) (m : Nat),
      ∃ s, (removePhase1 pool urls tg m).targets = tg ++ s := by
  intro urls
  induction urls with
  | nil => intro pool tg m; exact ⟨[], (List.append_nil tg).symm⟩
  | cons t rest ih =>
    intro pool tg m
    rw [removePhase1]
    rcases hl : lookupFirst pool t with _ | b0
    · exact ih pool tg m
    · obtain ⟨s, hs⟩ := ih (setAliveFalseFirst pool t) (tg ++ [b0.url])
        (Nat.max m b0.timeout)
      exact ⟨[b0.url] ++ s, by rw [hs, List.append_assoc]⟩

theorem removePhase1_pool_eq :
    ∀ (urls : List String) (pool : List Backend) (tg : List String) (m : Nat),
      (pool.map Backend.url).Nodup →
      (removePhase1 pool urls tg m).pool =
        pool.map (fun b => if b.url ∈ urls then { b with alive := false } else b) := by
  intro urls
  induction urls with
  | nil =>
    intro pool tg m _
    have : ∀ b ∈ pool,
        (if b.url ∈ ([] : List String) then { b with alive := false } else b) = b := by
      intro b _
      simp
    rw [removePhase1, List.map_congr_left this]
    exact (List.map_id' pool).symm
  | cons t rest ih =>
    intro pool tg m hnd
    rcases hl : lookupFirst pool t with _ | b0
    · simp only [removePhase1, hl]
      rw [ih pool tg m hnd]
      apply List.map_congr_left
      intro b hb
      have hbt : b.url ≠ t := (lookupFirst_none t pool).mp hl b hb
      simp [List.mem_cons, hbt]
    · simp only [removePhase1, hl]
      rw [setAliveFalseFirst_eq_map t pool hnd]
      have hnd' : ((pool.map
          (fun b => if b.url = t then { b with alive := false } else b)).map
            Backend.url).Nodup := by
        rw [← setAliveFalseFirst_eq_map t pool hnd, setAliveFalseFirst_map_url]
        exact hnd
      rw [ih _ _ _ hnd', List.map_map]
      apply List.map_congr_left
      intro b _
      by_cases hbt : b.url = t
      · by_cases hbr : b.url ∈ rest
        · simp [Function.comp, hbt, hbr, List.mem_cons]
        · simp [Function.comp, hbt, hbr, List.mem_cons]
      · by_cases hbr : b.url ∈ rest
        · simp [Function.comp, hbt, hbr, List.mem_cons]
        · simp [Function.comp, hbt, hbr, List.mem_cons]

theorem removePhase1_maxT_ub :
    ∀ (urls : List String) (pool : List Backend) (tg : List String) (m : Nat),
      (pool.map Backend.url).Nodup →
      ∀ b ∈ pool, b.url ∈ urls →
        b.timeout ≤ (removePhase1 pool urls tg m).maxTimeout := by
  intro urls
  induction urls with
  | nil => intro pool tg m _ b _ hbu; cases hbu
  | cons t rest ih =>
    intro pool tg m hnd b hb hbu
    rw [removePhase1]
    rcases hl : lookupFirst pool t with _ | b0
    · have hbt : b.url ≠ t := (lookupFirst_none t pool).mp hl b hb
      have hbr : b.url ∈ rest := by
        rcases List.mem_cons.mp hbu with h | h
        · exact absurd h hbt
        · exact h
      exact ih pool tg m hnd b hb hbr
    · obtain ⟨hb0m, hb0u⟩ := lookupFirst_some t pool hl
      have hnd' : ((setAliveFalseFirst pool t).map Backend.url).Nodup := by
        rw [setAliveFalseFirst_map_url]; exact hnd
      rcases List.mem_cons.mp hbu with h | h
      · have hbeq : b = b0 :=
          List.inj_on_of_nodup_map hnd hb hb0m (by rw [h, hb0u])
        calc b.timeout ≤ Nat.max m b0.timeout := by
              rw [hbeq]; exact Nat.le_max_right m b0.timeout
          _ ≤ _ := removePhase1_maxT_mono rest _ _ _
      · have hmem' : (if b.url = t then { b with alive := false } else b) ∈
            setAliveFalseFirst pool t := by
          rw [setAliveFalseFirst_eq_map t pool hnd]
          exact List.mem_map_of_mem _ hb
        have hurl : (if b.url = t then { b with alive := false } else b).url =
            b.url := by split <;> rfl
        have htmo : (if b.url = t then { b with alive := false } else b).timeout =
            b.timeout := by split <;> rfl
        calc b.timeout
            = (if b.url = t then { b with alive := false } else b).timeout :=
              htmo.symm
          _ ≤ _ := ih _ _ _ hnd' _ hmem' (by rw [hurl]; exact h)

theorem removePhase1_maxT_attained :
    ∀ (urls : List String) (pool : List Backend) (tg : List String) (m : Nat),
      (pool.map Backend.url).Nodup →
      (removePhase1 pool urls tg m).maxTimeout = m ∨
      ∃ b ∈ pool, b.url ∈ urls ∧
        b.timeout = (removePhase1 pool urls tg m).maxTimeout := by
  intro urls
  induction urls with
  | nil => intro pool tg m _; exact Or.inl rfl
  | cons t rest ih =>
    intro pool tg m hnd
    rcases hl : lookupFirst pool t with _ | b0
    · simp only [removePhase1, hl]
      rcases ih pool tg m hnd with h | ⟨b, hb, hbu, hbt⟩
      · exact Or.inl h
      · exact Or.inr ⟨b, hb, List.mem_cons_of_mem _ hbu, hbt⟩
    · simp only [removePhase1, hl]
      obtain ⟨hb0m, hb0u⟩ := lookupFirst_some t pool hl
      have hnd' : ((setAliveFalseFirst pool t).map Backend.url).Nodup := by
        rw [setAliveFalseFirst_map_url]; exact hnd
      rcases ih (setAliveFalseFirst pool t) (tg ++ [b0.url])
          (Nat.max m b0.timeout) hnd' with h | ⟨b', hb', hbu', hbt'⟩
      · rcases Nat.le_total m b0.timeout with hcmp | hcmp
        · refine Or.inr ⟨b0, hb0m, by rw [hb0u]; exact List.mem_cons_self _ _, ?_⟩
          rw [h]
          unfold Nat.max
          omega
        · left
          rw [h]
          unfold Nat.max
          omega
      · rw [setAliveFalseFirst_eq_map t pool hnd] at hb'
        obtain ⟨b, hb, rfl⟩ := List.mem_map.mp hb'
        have hurl : (if b.url = t then { b with alive := false } else b).url =
            b.url := by split <;> rfl
        have htmo : (if b.url = t then { b with alive := false } else b).timeout =
            b.timeout := by split <;> rfl
        rw [hurl] at hbu'
        rw [htmo] at hbt'
        exact Or.inr ⟨b, hb, List.mem_cons_of_mem _ hbu', hbt'⟩

theorem removePhase1_targets_ne :
    ∀ (urls : List String) (pool : List Backend) (tg : List String) (m : Nat),
      (∃ b ∈ pool, b.url ∈ urls) →
      (removePhase1 pool urls tg m).targets ≠ [] := by
  intro urls
  induction urls with
  | nil => rintro pool tg m ⟨b, _, hbu⟩; cases hbu
  | cons t rest ih =>
    rintro pool tg m ⟨b, hb, hbu⟩
    rw [removePhase1]
    rcases hl : lookupFirst pool t with _ | b0
    · have hbt : b.url ≠ t := (lookupFirst_none t pool).mp hl b hb
      have hbr : b.url ∈ rest := by
        rcases List.mem_cons.mp hbu with h | h
        · exact absurd h hbt
        · exact h
      exact ih pool tg m ⟨b, hb, hbr⟩
    · obtain ⟨s, hs⟩ := removePhase1_targets_extend rest
        (setAliveFalseFirst pool t) (tg ++ [b0.url]) (Nat.max m b0.timeout)
      rw [hs]
      simp

theorem removePhase1_mem_targets :
    ∀ (urls : List String) (pool : List Backend) (tg : List String) (m : Nat)
      (u : String), (pool.map Backend.url).Nodup →
      (∃ c ∈ pool, c.url = u) → u ∈ urls →
      u ∈ (removePhase1 pool urls tg m).targets := by
  intro urls
  induction urls with
  | nil => intro pool tg m u _ _ hu; cases hu
  | cons t rest ih =>
    rintro pool tg m u hnd ⟨c, hc, hcu⟩ hu
    rw [removePhase1]
    rcases hl : lookupFirst pool t with _ | b0
    · have hct : c.url ≠ t := (lookupFirst_none t pool).mp hl c hc
      have hur : u ∈ rest := by
        rcases List.mem_cons.mp hu with h | h
        · rw [← hcu] at h; exact absurd h hct
        · exact h
      exact ih pool tg m u hnd ⟨c, hc, hcu⟩ hur
    · obtain ⟨hb0m, hb0u⟩ := lookupFirst_some t pool hl
      have hnd' : ((setAliveFalseFirst pool t).map Backend.url).Nodup := by
        rw [setAliveFalseFirst_map_url]; exact hnd
      rcases List.mem_cons.mp hu with h | h
      · obtain ⟨s, hs⟩ := removePhase1_targets_extend rest
          (setAliveFalseFirst pool t) (tg ++ [b0.url]) (Nat.max m b0.timeout)
        rw [hs]
        have : u = b0.url := by rw [hb0u, ← h]
        simp [this]
      · have hmem' : (if c.url = t then { c with alive := false } else c) ∈
            setAliveFalseFirst pool t := by
          rw [setAliveFalseFirst_eq_map t pool hnd]
          exact List.mem_map_of_mem _ hc
        have hurl : (if c.url = t then { c with alive := false } else c).url =
            c.url := by split <;> rfl
        exact ih _ _ _ u hnd' ⟨_, hmem', by rw [hurl]; exact hcu⟩ h

theorem removeFirst_sublist (t : String) :
    ∀ (pool : List Backend), (removeFirst pool t).Sublist pool := by
  intro pool
  induction pool with
  | nil => exact List.Sublist.refl _
  | cons q rest ih =>
    by_cases hq : q.url = t
    · rw [removeFirst, if_pos hq]
      exact List.sublist_cons_self q rest
    · rw [removeFirst, if_neg hq]
      exact List.Sublist.cons₂ q ih

theorem removeFirst_no_url (t : String) :
    ∀ (pool : List Backend), (pool.map Backend.url).Nodup →
      ∀ b ∈ removeFirst pool t, b.url ≠ t := by
  intro pool
  induction pool with
  | nil => intro _ b hb; cases hb
  | cons q rest ih =>
    intro hnd b hb
    rw [List.map_cons, List.nodup_cons] at hnd
    obtain ⟨hqn, hrest⟩ := hnd
    by_cases hq : q.url = t
    · rw [removeFirst, if_pos hq] at hb
      intro hbt
      exact hqn (by rw [hq, ← hbt]; exact List.mem_map_of_mem _ hb)
    · rw [removeFirst, if_neg hq] at hb
      rcases List.mem_cons.mp hb with rfl | hb'
      · exact hq
      · exact ih hrest b hb'

theorem removePhase2_subset :
    ∀ (targets : List String) (pool : List Backend),
      ∀ b ∈ removePhase2 pool targets, b ∈ pool := by
  intro targets
  induction targets with
  | nil => intro pool b hb; exact hb
  | cons t0 ts ih =>
    intro pool b hb
    rw [removePhase2, List.foldl_cons] at hb
    exact (removeFirst_sublist t0 pool).subset (ih (removeFirst pool t0) b hb)

theorem removePhase2_no_target_url :
    ∀ (targets : List String) (pool : List Backend),
      (pool.map Backend.url).Nodup →
      ∀ t ∈ targets, ∀ b ∈ removePhase2 pool targets, b.url ≠ t := by
  intro targets
  induction targets with
  | nil => intro pool _ t ht; cases ht
  | cons t0 ts ih =>
    intro pool hnd t ht b hb
    rw [removePhase2, List.foldl_cons] at hb
    have hnd' : ((removeFirst pool t0).map Backend.url).Nodup :=
      ((removeFirst_sublist t0 pool).map Backend.url).nodup hnd
    rcases List.mem_cons.mp ht with rfl | ht'
    · exact removeFirst_no_url t pool hnd b
        (removePhase2_subset ts (removeFirst pool t) b hb)
    · exact ih (removeFirst pool t0) hnd' t ht' b hb

/-- C5: a `RemoveBackends` call whose address list matches at least one
pooled backend (pool URLs distinct, per the pool invariant) marks every
matching backend dead in phase 1 while keeping it present in the
collection with its URL and timeout (unselectable but still
retrievable between the phases), performs exactly one sleep whose
duration is the maximum — not the sum — of the matching backends'
timeouts, and in phase 2 excises exactly the matching entries. -/
theorem C5_two_phase_removal (pool : List Backend) (urls : List String)
    (hnd : (pool.map Backend.url).Nodup)
    (hmatch : ∃ b ∈ pool, b.url ∈ urls) :
    (∀ b ∈ (RemoveBackends pool urls).afterPhase1,
      b.url ∈ urls → b.alive = false) ∧
    (∀ b ∈ pool, b.url ∈ urls →
      ∃ b' ∈ (RemoveBackends pool urls).afterPhase1,
        b'.url = b.url ∧ b'.timeout = b.timeout ∧ b'.alive = false) ∧
    ((RemoveBackends pool urls).sleeps =
      [(removePhase1 pool urls [] 0).maxTimeout]) ∧
    (∀ b ∈ pool, b.url ∈ urls →
      b.timeout ≤ (removePhase1 pool urls [] 0).maxTimeout) ∧
    ((removePhase1 pool urls [] 0).maxTimeout = 0 ∨
      ∃ b ∈ pool, b.url ∈ urls ∧
        b.timeout = (removePhase1 pool urls [] 0).maxTimeout) ∧
    (∀ b ∈ (RemoveBackends pool urls).final, b.url ∉ urls) := by
  have hne : (removePhase1 pool urls [] 0).targets ≠ [] :=
    removePhase1_targets_ne urls pool [] 0 hmatch
  have hrb : RemoveBackends pool urls =
      ⟨(removePhase1 pool urls [] 0).pool,
        removePhase2 (removePhase1 pool urls [] 0).pool
          (removePhase1 pool urls [] 0).targets,
        [(removePhase1 pool urls [] 0).maxTimeout]⟩ := by
    unfold RemoveBackends
    rw [if_neg hne]
  have hpool := removePhase1_pool_eq urls pool [] 0 hnd
  have hndp : ((removePhase1 pool urls [] 0).pool.map Backend.url).Nodup := by
    rw [hpool, List.map_map]
    have : (Backend.url ∘ fun b =>
        if b.url ∈ urls then { b with alive := false } else b) = Backend.url := by
      funext b
      simp only [Function.comp_apply]
      split <;> rfl
    rw [this]
    exact hnd
  refine ⟨?_, ?_, ?_, ?_, ?_, ?_⟩
  · intro b hb hbu
    rw [hrb] at hb
    simp only at hb
    rw [hpool] at hb
    obtain ⟨c, _, rfl⟩ := List.mem_map.mp hb
    by_cases hc : c.url ∈ urls
    · simp [hc]
    · rw [if_neg hc] at hbu ⊢
      exact absurd hbu hc
  · intro b hb hbu
    refine ⟨{ b with alive := false }, ?_, rfl, rfl, rfl⟩
    rw [hrb]
    simp only
    rw [hpool]
    have : { b with alive := false } =
        (fun b => if b.url ∈ urls then { b with alive := false } else b) b := by
      simp [hbu]
    rw [this]
    exact List.mem_map_of_mem _ hb
  · rw [hrb]
  · exact removePhase1_maxT_ub urls pool [] 0 hnd
  · exact removePhase1_maxT_attained urls pool [] 0 hnd
  · intro b hb hbu
    rw [hrb] at hb
    simp only at hb
    have hbp : b ∈ (removePhase1 pool urls [] 0).pool :=
      removePhase2_subset _ _ b hb
    have hcu : ∃ c ∈ pool, c.url = b.url := by
      rw [hpool] at hbp
      obtain ⟨c, hc, rfl⟩ := List.mem_map.mp hbp
      refine ⟨c, hc, ?_⟩
      split <;> rfl
    have htg : b.url ∈ (removePhase1 pool urls [] 0).targets :=
      removePhase1_mem_targets urls pool [] 0 b.url hnd hcu hbu
    exact removePhase2_no_target_url _ _ hndp b.url htg b hb rfl

/-- Witness for C5 at the spec's drain example: removing backends with
timeouts 5, 20, 60 in one batch sleeps once for 60 (the max), not 85
(the sum). -/
theorem C5_two_phase_removal_witness :
    (RemoveBackends
      [Backend.mk "a" true 5 0 0, Backend.mk "b" true 20 0 0,
        Backend.mk "c" true 60 0 0, Backend.mk "d" true 9 0 0]
      ["a", "b", "c"]).sleeps = [60] :=
  ((C5_two_phase_removal
      [Backend.mk "a" true 5 0 0, Backend.mk "b" true 20 0 0,
        Backend.mk "c" true 60 0 0, Backend.mk "d" true 9 0 0]
      ["a", "b", "c"] (by decide)
      ⟨Backend.mk "a" true 5 0 0, by decide, by decide⟩).2.2.1).trans
    (by decide)

end LoadBalancerGo
